import Mathlib

/-
Verification of the HAR-RV pipeline: point-in-time peer selection
(data_loading.get_peers), walk-forward forecasting
(forecasting.rolling_forecast) and skill evaluation
(evaluation.evaluate_forecast).

Modelling conventions:
* dataframes are lists of records, in row order;
* dates are integer day counts; missing values (pandas NaN / NaT) are
  Option.none;
* pandas elementwise comparisons return False whenever either operand is
  missing, which the eqOF / ltOF helpers reproduce;
* the source sorts candidates with pandas sort_values under the library
  default quicksort, whose order among equal distance keys is
  implementation-defined and not guaranteed stable; the embedding fixes
  one representative total order (a stable insertion sort, missing keys
  last as with the na_position default) so the functions stay executable,
  and no conclusion about the program rests on where this model places
  equal keys;
* the OLS regression of statsmodels is an external library, so the
  walk-forward loop is parameterised by an arbitrary fit-and-predict
  function; none of the verified claims depends on the fitted values;
* a Python function that raises for some input is modelled as returning
  Option.none there (rolling_forecast never raises and stays total);
* IEEE division and sqrt in the evaluator are modelled over the reals,
  with a dedicated marker for the non-finite skill value produced when
  the baseline error is zero.
-/

namespace HARRV

/-- One row of the IPO universe dataframe (data_loading.py):
ticker, GICS sector, IPO date, fundamentals report date, market value. -/
structure Entity where
  tic : String
  gsector : Option Int
  ipodate : Option Int
  rdq : Option Int
  mkvaltq : Option ℚ
deriving DecidableEq

/-- Pandas elementwise equality: False when either side is missing. -/
def eqOF (a b : Option Int) : Bool :=
  match a, b with
  | some x, some y => x == y
  | _, _ => false

/-- Pandas elementwise strict less-than: False when either side is missing. -/
def ltOF (a b : Option Int) : Bool :=
  match a, b with
  | some x, some y => decide (x < y)
  | _, _ => false

/-- The first candidate filter of get_peers: same sector, listed strictly
before the target, and not the target ticker itself. -/
def candidateFilter (tr : Entity) (t : String) (e : Entity) : Bool :=
  eqOF e.gsector tr.gsector && ltOF e.ipodate tr.ipodate && !(e.tic == t)

/-- The 45-day reporting-lag filter of get_peers:
rdq < target ipodate - 45 days. -/
def lagFilter (tr : Entity) (e : Entity) : Bool :=
  ltOF e.rdq (tr.ipodate.map (fun d => d - 45))

/-- The potential_peers dataframe of get_peers after both filters,
in original universe row order. -/
def potential_peers (tr : Entity) (t : String) (u : List Entity) : List Entity :=
  (u.filter (candidateFilter tr t)).filter (lagFilter tr)

/-- Absolute value on the rationals, written so that the kernel can
evaluate it on concrete inputs. -/
def absQ (x : ℚ) : ℚ :=
  if x < 0 then -x else x

/-- The dist column: absolute valuation distance to the target, missing
when either valuation is missing. -/
def distOf (tv : Option ℚ) (e : Entity) : Option ℚ :=
  match tv, e.mkvaltq with
  | some v, some x => some (absQ (x - v))
  | _, _ => none

/-- Ordering on distance keys: ascending on present values, missing keys
sort after every present value (pandas na_position defaults to last). -/
def naLast (a b : Option ℚ) : Bool :=
  match a, b with
  | some x, some y => decide (x ≤ y)
  | some _, none => true
  | none, some _ => false
  | none, none => true

/-- Row comparison used by the sort on the dist column. -/
def distLe (tv : Option ℚ) (e f : Entity) : Bool :=
  naLast (distOf tv e) (distOf tv f)

/-- Insert an element into a list, before the first element it compares
less-or-equal to. -/
def ordIns {α : Type} (le : α → α → Bool) (a : α) : List α → List α
  | [] => [a]
  | b :: l => if le a b then a :: b :: l else b :: ordIns le a l

/-- One representative total ordering for pandas sort_values (an
insertion sort).  The source uses the pandas default quicksort, whose
order among equal keys is implementation-defined, so no conclusion about
the program may rest on where this model places equal keys. -/
def sort_values {α : Type} (le : α → α → Bool) : List α → List α
  | [] => []
  | a :: l => ordIns le a (sort_values le l)

/-- Body of get_peers once the target row is resolved: filter, sort by
valuation distance, take the first n tickers. -/
def peersFor (tr : Entity) (t : String) (u : List Entity) (n : Nat) : List String :=
  let pp := potential_peers tr t u
  if pp.isEmpty then []
  else ((sort_values (distLe tr.mkvaltq) pp).take n).map (fun e => e.tic)

/-- data_loading.get_peers: resolve the target as the first row whose
ticker matches (iloc[0]); a failed lookup (IndexError in the source) is
Option.none. -/
def get_peers (u : List Entity) (t : String) (n : Nat) : Option (List String) :=
  (u.find? (fun e => e.tic == t)).map (fun tr => peersFor tr t u n)

/-- One row of the aligned frame built inside rolling_forecast:
timestamp, Actual_RV, Lag_RV, Peer_Prior. -/
structure Row where
  ts : Int
  actual : ℚ
  lag : ℚ
  peer : ℚ
deriving DecidableEq

/-- Default row used for positional access. -/
def rowDefault : Row := { ts := 0, actual := 0, lag := 0, peer := 0 }

/-- The three column values at shared index position i, present only when
Actual_RV, its one-step lag and Peer_Prior are all present (dropna). -/
def rowAt (tgt peer : List (Option ℚ)) (i : Nat) : Option (ℚ × ℚ × ℚ) :=
  match tgt.getD i none, (if i = 0 then none else tgt.getD (i - 1) none),
        peer.getD i none with
  | some a, some lg, some p => some (a, lg, p)
  | _, _, _ => none

/-- Shared-index positions that survive the dropna, in increasing order. -/
def alignedIdx (tgt peer : List (Option ℚ)) (n : Nat) : List Nat :=
  (List.range n).filter (fun i => (rowAt tgt peer i).isSome)

/-- The aligned data frame built at the top of rolling_forecast from the
two input series over their shared index. -/
def alignedFrame (idx : List Int) (tgt peer : List (Option ℚ)) : List Row :=
  (alignedIdx tgt peer idx.length).map (fun i =>
    let r := (rowAt tgt peer i).getD (0, 0, 0)
    { ts := idx.getD i 0, actual := r.1, lag := r.2.1, peer := r.2.2 })

/-- The training slice data.iloc[t - window_size : t] of the walk-forward
loop. -/
def trainWindow (data : List Row) (w t : Nat) : List Row :=
  (data.drop (t - w)).take w

/-- One forecast record of the output frame: timestamp, actual, forecast. -/
structure Frec where
  ts : Int
  actual : ℚ
  forecast : ℚ
deriving DecidableEq

/-- Default forecast record used for positional access. -/
def frecDefault : Frec := { ts := 0, actual := 0, forecast := 0 }

/-- forecasting.rolling_forecast: for t from window_size to len(data) - 1,
refit on the sliding window and predict row t.  The OLS fit-and-predict
step (statsmodels, external) is the parameter ols. -/
def rolling_forecast (ols : List Row → Row → ℚ) (w : Nat) (data : List Row) :
    List Frec :=
  ((List.range data.length).drop w).map (fun t =>
    let test := data.getD t rowDefault
    { ts := test.ts, actual := test.actual,
      forecast := ols (trainWindow data w t) test })

/-- Pandas shift(1): drop the last value, place a missing value first. -/
def shift1 (xs : List ℚ) : List (Option ℚ) :=
  match xs with
  | [] => []
  | _ :: _ => none :: xs.dropLast.map some

/-- First present value of a list, if any. -/
def nextVal : List (Option ℚ) → Option ℚ
  | [] => none
  | some v :: _ => some v
  | none :: l => nextVal l

/-- Pandas fillna(method=bfill): each missing entry is replaced by the
nearest subsequent present entry, if one exists. -/
def bfill : List (Option ℚ) → List (Option ℚ)
  | [] => []
  | x :: l =>
      (match x with
       | some v => some v
       | none => nextVal l) :: bfill l

/-- The naive persistence baseline of evaluate_forecast:
Actual.shift(1).fillna(method=bfill). -/
def naiveForecast (a : List ℚ) : List (Option ℚ) :=
  bfill (shift1 a)

/-- Extract a fully present list; none when any entry is missing
(sklearn mean_squared_error rejects NaN input). -/
def seqOption : List (Option ℚ) → Option (List ℚ)
  | [] => some []
  | none :: _ => none
  | some v :: l => (seqOption l).map (fun r => v :: r)

/-- Mean squared error of two equal-length columns. -/
def mseQ (ys fs : List ℚ) : ℚ :=
  (((ys.zip fs).map (fun p => (p.1 - p.2) ^ 2)).sum) / (ys.length : ℚ)

/-- The two mean squared errors underlying the metrics dict of
evaluate_forecast. -/
structure Metrics where
  model_mse : ℚ
  naive_mse : ℚ
deriving DecidableEq

/-- evaluation.evaluate_forecast, computable core: none models the
ValueError sklearn raises on an empty frame or on a baseline column that
still contains a missing value after the back-fill. -/
def evaluate_forecast (rs : List (ℚ × ℚ)) : Option Metrics :=
  if rs.isEmpty then none
  else
    let actual := rs.map (fun r => r.1)
    let fcst := rs.map (fun r => r.2)
    match seqOption (naiveForecast actual) with
    | none => none
    | some nv => some { model_mse := mseQ actual fcst, naive_mse := mseQ actual nv }

/-- Model RMSE (np.sqrt of the mean squared error). -/
noncomputable def model_rmse (m : Metrics) : ℝ :=
  Real.sqrt (m.model_mse : ℝ)

/-- Baseline RMSE (np.sqrt of the naive mean squared error). -/
noncomputable def naive_rmse (m : Metrics) : ℝ :=
  Real.sqrt (m.naive_mse : ℝ)

/-- Value of the skill score: either a real number, or the non-finite
IEEE value (nan or -inf) produced by dividing by a zero baseline error. -/
inductive SkillScore where
  | undef : SkillScore
  | val : ℝ → SkillScore

/-- The skill score (naive_rmse - rmse) / naive_rmse; dividing by a zero
baseline RMSE yields the non-finite marker, never a coerced number. -/
noncomputable def skill_score (m : Metrics) : SkillScore :=
  if naive_rmse m = 0 then SkillScore.undef
  else SkillScore.val ((naive_rmse m - model_rmse m) / naive_rmse m)

/-- The metrics dict returned by evaluate_forecast:
model_rmse, naive_rmse, skill_score. -/
noncomputable def evaluate_metrics (rs : List (ℚ × ℚ)) :
    Option (ℝ × ℝ × SkillScore) :=
  (evaluate_forecast rs).map (fun m => (model_rmse m, naive_rmse m, skill_score m))

/-- The column of actual values of a forecast-record list. -/
def actualCol (rs : List (ℚ × ℚ)) : List ℚ :=
  rs.map (fun r => r.1)

/- Helper lemmas about the stable sort. -/

theorem ordIns_perm {α : Type} (le : α → α → Bool) (a : α) :
    ∀ l : List α, (ordIns le a l).Perm (a :: l)
  | [] => List.Perm.refl _
  | b :: l => by
    unfold ordIns
    by_cases h : le a b = true
    · simp [h]
    · simp only [h]
      simp only [Bool.false_eq_true, if_false]
      exact ((ordIns_perm le a l).cons b).trans (List.Perm.swap a b l)

theorem sort_values_perm {α : Type} (le : α → α → Bool) :
    ∀ l : List α, (sort_values le l).Perm l
  | [] => List.Perm.refl _
  | a :: l =>
    (ordIns_perm le a (sort_values le l)).trans ((sort_values_perm le l).cons a)

theorem mem_sort_values {α : Type} {le : α → α → Bool} {l : List α} {x : α} :
    x ∈ sort_values le l ↔ x ∈ l :=
  (sort_values_perm le l).mem_iff

theorem eqOF_iff {a b : Option Int} :
    eqOF a b = true ↔ ∃ x, a = some x ∧ b = some x := by
  cases a <;> cases b <;> simp [eqOF]
  exact eq_comm

theorem ltOF_iff {a b : Option Int} :
    ltOF a b = true ↔ ∃ x y, a = some x ∧ b = some y ∧ x < y := by
  cases a <;> cases b <;> simp [ltOF]

/- Concrete records used by the witnesses: a software-sector target listed
at day 1000 with valuation 100, and peers whose valuations differ from the
target by 1, 5 and 10 units, all listed long before the target and having
reported fundamentals more than 45 days before day 1000. -/

/-- Concrete target record. -/
def targetT : Entity :=
  { tic := "T", gsector := some 45, ipodate := some 1000, rdq := some 990,
    mkvaltq := some 100 }

/-- Concrete peer at valuation distance 1. -/
def peerA : Entity :=
  { tic := "A", gsector := some 45, ipodate := some 100, rdq := some 200,
    mkvaltq := some 101 }

/-- Concrete peer at valuation distance 5. -/
def peerB : Entity :=
  { tic := "B", gsector := some 45, ipodate := some 120, rdq := some 210,
    mkvaltq := some 105 }

/-- Concrete peer at valuation distance 10. -/
def peerC : Entity :=
  { tic := "C", gsector := some 45, ipodate := some 130, rdq := some 220,
    mkvaltq := some 110 }

/-- First of two distinct records sharing ticker P. -/
def peerP1 : Entity :=
  { tic := "P", gsector := some 45, ipodate := some 100, rdq := some 200,
    mkvaltq := some 99 }

/-- Second of two distinct records sharing ticker P. -/
def peerP2 : Entity :=
  { tic := "P", gsector := some 45, ipodate := some 120, rdq := some 210,
    mkvaltq := some 101 }

/-- A second record carrying the target ticker, for the duplicate-target
scenario. -/
def targetDup : Entity :=
  { tic := "T", gsector := some 45, ipodate := some 500, rdq := some 400,
    mkvaltq := some 7 }

/-- C2: every peer id returned by get_peers comes from a universe record
with the target's sector code, a ticker different from the target's, a
listing date strictly earlier than the target's listing date, and a
fundamentals-report date strictly earlier than the target's listing date
minus 45 days. -/
theorem c2_peer_temporal_validity (u : List Entity) (t : String) (n : Nat)
    (tr : Entity) (l : List String) (p : String)
    (htr : u.find? (fun e => e.tic == t) = some tr)
    (hl : get_peers u t n = some l) (hp : p ∈ l) :
    ∃ e ∈ u, e.tic = p ∧ e.tic ≠ t ∧
      (∃ s, e.gsector = some s ∧ tr.gsector = some s) ∧
      (∃ de dT, e.ipodate = some de ∧ tr.ipodate = some dT ∧ de < dT) ∧
      (∃ rq dT, e.rdq = some rq ∧ tr.ipodate = some dT ∧ rq < dT - 45) := by
  rw [get_peers, htr] at hl
  simp only [Option.map_some'] at hl
  have hl2 : peersFor tr t u n = l := Option.some.inj hl
  rw [peersFor] at hl2
  by_cases hpp : (potential_peers tr t u).isEmpty
  · simp only [hpp, if_true] at hl2
    rw [← hl2] at hp
    exact absurd hp (List.not_mem_nil p)
  · simp only [hpp] at hl2
    simp only [Bool.false_eq_true, if_false] at hl2
    rw [← hl2] at hp
    obtain ⟨e, he, hep⟩ := List.mem_map.mp hp
    have hmem : e ∈ potential_peers tr t u :=
      mem_sort_values.mp (List.mem_of_mem_take he)
    rw [potential_peers] at hmem
    obtain ⟨h1, hlag⟩ := List.mem_filter.mp hmem
    obtain ⟨hu, hcand⟩ := List.mem_filter.mp h1
    simp only [candidateFilter, Bool.and_eq_true] at hcand
    obtain ⟨⟨hsec, hlist⟩, htic⟩ := hcand
    have htic2 : e.tic ≠ t := by simpa using htic
    obtain ⟨s, hs1, hs2⟩ := eqOF_iff.mp hsec
    obtain ⟨de, dT, hde, hdT, hlt⟩ := ltOF_iff.mp hlist
    rw [lagFilter] at hlag
    obtain ⟨rq, z, hrq, hz, hrqlt⟩ := ltOF_iff.mp hlag
    obtain ⟨dT2, hdT2, hz2⟩ := Option.map_eq_some'.mp hz
    refine ⟨e, hu, hep, htic2, ⟨s, hs1, hs2⟩, ⟨de, dT, hde, hdT, hlt⟩,
      ⟨rq, dT2, hrq, hdT2, ?_⟩⟩
    rw [← hz2] at hrqlt
    exact hrqlt

/-- C2 witness at a concrete universe. -/
theorem c2_peer_temporal_validity_witness :
    ([targetT, peerA].find? (fun e => e.tic == "T") = some targetT) ∧
    (get_peers [targetT, peerA] "T" 2 = some ["A"]) ∧
    ("A" ∈ ["A"]) ∧
    (∃ e ∈ [targetT, peerA], e.tic = "A" ∧ e.tic ≠ "T" ∧
      (∃ s, e.gsector = some s ∧ targetT.gsector = some s) ∧
      (∃ de dT, e.ipodate = some de ∧ targetT.ipodate = some dT ∧ de < dT) ∧
      (∃ rq dT, e.rdq = some rq ∧ targetT.ipodate = some dT ∧ rq < dT - 45)) := by
  have h1 : [targetT, peerA].find? (fun e => e.tic == "T") = some targetT := by
    simp [List.find?, targetT, peerA]
  have h2 : get_peers [targetT, peerA] "T" 2 = some ["A"] := by
    simp [get_peers, peersFor, potential_peers, candidateFilter, lagFilter, eqOF,
      ltOF, distLe, distOf, absQ, naLast, sort_values, ordIns, targetT, peerA,
      List.find?, List.filter]
  have h3 : "A" ∈ ["A"] := List.mem_singleton.mpr rfl
  exact ⟨h1, h2, h3,
    c2_peer_temporal_validity [targetT, peerA] "T" 2 targetT ["A"] "A" h1 h2 h3⟩

/-- First of two records tied at valuation distance 1 from the target. -/
def peerTie1 : Entity :=
  { tic := "P1", gsector := some 45, ipodate := some 100, rdq := some 200,
    mkvaltq := some 99 }

/-- Second of two records tied at valuation distance 1 from the target. -/
def peerTie2 : Entity :=
  { tic := "P2", gsector := some 45, ipodate := some 120, rdq := some 210,
    mkvaltq := some 101 }

/-- C5: ascending valuation-distance order, which is all that the pandas
default quicksort guarantees for the dist column, does not determine the
order among candidates at equal distance: two distinct tied candidates are
ascending in distance in either order.  The stable tie-break by original
universe order that the claim asserts is therefore not a guarantee of the
program, whose sort leaves the tie order implementation-defined. -/
theorem c5_tie_order_underdetermined :
    ([peerTie1, peerTie2].Pairwise (fun e f => distLe (some 100) e f = true)) ∧
    ([peerTie2, peerTie1].Pairwise (fun e f => distLe (some 100) e f = true)) ∧
    distOf (some 100) peerTie1 = distOf (some 100) peerTie2 ∧
    [peerTie1, peerTie2] ≠ [peerTie2, peerTie1] := by
  refine ⟨?_, ?_, ?_, ?_⟩
  · refine List.pairwise_cons.mpr ⟨?_, List.pairwise_singleton _ _⟩
    intro f hf
    rw [List.mem_singleton.mp hf]
    norm_num [distLe, distOf, absQ, naLast, peerTie1, peerTie2]
  · refine List.pairwise_cons.mpr ⟨?_, List.pairwise_singleton _ _⟩
    intro f hf
    rw [List.mem_singleton.mp hf]
    norm_num [distLe, distOf, absQ, naLast, peerTie1, peerTie2]
  · norm_num [distOf, absQ, peerTie1, peerTie2]
  · intro h
    have h2 : peerTie1 = peerTie2 := (List.cons_eq_cons.mp h).1
    have h3 : peerTie1.tic = peerTie2.tic := by rw [h2]
    simp [peerTie1, peerTie2] at h3

/-- C8: a target ticker matching no record makes get_peers fail; the first
matching record in input order is the one used as the target, so appending
a later duplicate of the target ticker changes nothing. -/
theorem c8_target_resolution (u : List Entity) (t : String) (n : Nat) :
    ((∀ e ∈ u, e.tic ≠ t) → get_peers u t n = none) ∧
    (∀ tr, u.find? (fun e => e.tic == t) = some tr →
      get_peers u t n = some (peersFor tr t u n)) ∧
    (∀ e2, (∃ r ∈ u, r.tic = t) → e2.tic = t →
      get_peers (u ++ [e2]) t n = get_peers u t n) := by
  refine ⟨?_, ?_, ?_⟩
  · intro h
    rw [get_peers]
    have : u.find? (fun e => e.tic == t) = none := by
      rw [List.find?_eq_none]
      intro x hx
      simp [h x hx]
    rw [this]
    rfl
  · intro tr htr
    rw [get_peers, htr]
    rfl
  · intro e2 hex he2
    obtain ⟨r, hr, hrt⟩ := hex
    have hsome : (u.find? (fun e => e.tic == t)).isSome := by
      rw [List.find?_isSome]
      exact ⟨r, hr, by simp [hrt]⟩
    obtain ⟨tr, htr⟩ := Option.isSome_iff_exists.mp hsome
    have happ : (u ++ [e2]).find? (fun e => e.tic == t) = some tr := by
      rw [List.find?_append, htr]
      rfl
    rw [get_peers, get_peers, htr, happ]
    simp only [Option.map_some']
    have hpp : potential_peers tr t (u ++ [e2]) = potential_peers tr t u := by
      rw [potential_peers, potential_peers, List.filter_append]
      have : List.filter (candidateFilter tr t) [e2] = [] := by
        simp [List.filter, candidateFilter, he2]
      rw [this, List.append_nil]
    rw [peersFor, peersFor, hpp]

/-- C8 witness: all three parts at concrete universes. -/
theorem c8_target_resolution_witness :
    ((∀ e ∈ [peerA], e.tic ≠ "T") ∧ get_peers [peerA] "T" 3 = none) ∧
    (([targetT, peerA].find? (fun e => e.tic == "T") = some targetT) ∧
      get_peers [targetT, peerA] "T" 3 =
        some (peersFor targetT "T" [targetT, peerA] 3)) ∧
    ((∃ r ∈ [targetT, peerA], r.tic = "T") ∧ targetDup.tic = "T" ∧
      get_peers ([targetT, peerA] ++ [targetDup]) "T" 3 =
        get_peers [targetT, peerA] "T" 3) := by
  have ha : ∀ e ∈ [peerA], e.tic ≠ "T" := by
    intro e he
    simp only [List.mem_singleton] at he
    subst he
    simp [peerA]
  have hb : [targetT, peerA].find? (fun e => e.tic == "T") = some targetT := by
    simp [List.find?, targetT, peerA]
  have hc : ∃ r ∈ [targetT, peerA], r.tic = "T" :=
    ⟨targetT, List.mem_cons_self _ _, rfl⟩
  have hd : targetDup.tic = "T" := rfl
  exact ⟨⟨ha, (c8_target_resolution [peerA] "T" 3).1 ha⟩,
    ⟨hb, (c8_target_resolution [targetT, peerA] "T" 3).2.1 targetT hb⟩,
    ⟨hc, hd, (c8_target_resolution [targetT, peerA] "T" 3).2.2 targetDup hc hd⟩⟩

/-- C10: a universe holding two distinct records with the same ticker, both
passing every filter, yields that ticker twice: output is per record, not
deduplicated by id. -/
theorem c10_duplicate_tickers :
    peerP1.tic = peerP2.tic ∧ peerP1 ≠ peerP2 ∧
    get_peers [targetT, peerP1, peerP2] "T" 5 = some ["P", "P"] ∧
    (["P", "P"].count "P") = 2 := by
  refine ⟨rfl, ?_, ?_, rfl⟩
  · intro h
    have : peerP1.ipodate = peerP2.ipodate := by rw [h]
    simp [peerP1, peerP2] at this
  · simp [get_peers, peersFor, potential_peers, candidateFilter, lagFilter, eqOF,
      ltOF, distLe, distOf, absQ, naLast, sort_values, ordIns, targetT, peerP1,
      peerP2, List.find?, List.filter]
    norm_num [distLe, distOf, absQ, naLast, sort_values, ordIns]

/- Forecasting helpers and claims. -/

/-- Concrete aligned rows used by the forecasting witnesses. -/
def sampleRows : List Row :=
  [{ ts := 0, actual := 1, lag := 2, peer := 3 },
   { ts := 1, actual := 2, lag := 1, peer := 4 },
   { ts := 2, actual := 3, lag := 2, peer := 5 }]

/-- A two-row aligned frame, shorter than window 2 plus one. -/
def sampleRowsShort : List Row :=
  [{ ts := 0, actual := 1, lag := 2, peer := 3 },
   { ts := 1, actual := 2, lag := 1, peer := 4 }]

theorem rolling_forecast_map_ts (ols : List Row → Row → ℚ) (w : Nat)
    (data : List Row) :
    (rolling_forecast ols w data).map (fun r => r.ts) =
      (data.map (fun r => r.ts)).drop w := by
  apply List.ext_getElem?
  intro i
  rw [rolling_forecast, List.map_map]
  rw [List.getElem?_map, List.getElem?_drop]
  rw [← List.map_drop, List.getElem?_map, List.getElem?_drop]
  by_cases hi : w + i < data.length
  · rw [List.getElem?_range (by simpa using hi)]
    rw [List.getElem?_eq_getElem hi]
    simp only [Option.map_some', Function.comp_apply]
    rw [List.getD_eq_getElem?_getD, List.getElem?_eq_getElem hi]
    rfl
  · rw [List.getElem?_eq_none (by simpa [List.length_range] using Nat.le_of_not_lt hi)]
    rw [List.getElem?_eq_none (Nat.le_of_not_lt hi)]
    rfl

theorem pairwise_lt_drop_le (w : Nat) :
    ∀ (l : List Nat) (c : Nat), l.Pairwise (fun a b => a < b) →
      (∀ x ∈ l, c ≤ x) → ∀ j ∈ l.drop w, c + w ≤ j := by
  induction w with
  | zero =>
    intro l c _ hc j hj
    simpa using hc j (by simpa using hj)
  | succ w ih =>
    intro l c hp hc j hj
    cases l with
    | nil => simp at hj
    | cons a t =>
      rw [List.drop_succ_cons] at hj
      rcases List.pairwise_cons.mp hp with ⟨ha, ht⟩
      have hc2 : ∀ x ∈ t, c + 1 ≤ x := by
        intro x hx
        have h1 := hc a (List.mem_cons_self a t)
        have h2 := ha x hx
        omega
      have := ih t (c + 1) ht hc2 j hj
      omega

/-- C1: at every step t from window_size to len(data) - 1, the training
slice is exactly the half-open window of the window_size rows at positions
t - window_size .. t - 1, every such position is strictly below t, and the
forecast record for step t is produced by applying the fitted model of
exactly that slice to row t. -/
theorem c1_causal_training_window (ols : List Row → Row → ℚ) (w t : Nat)
    (data : List Row) (hw : w ≤ t) (ht : t < data.length) :
    (trainWindow data w t).length = w ∧
    (∀ k, k < w → (trainWindow data w t).getD k rowDefault =
      data.getD (t - w + k) rowDefault) ∧
    (∀ k, k < w → t - w + k < t) ∧
    (rolling_forecast ols w data).getD (t - w) frecDefault =
      { ts := (data.getD t rowDefault).ts,
        actual := (data.getD t rowDefault).actual,
        forecast := ols (trainWindow data w t) (data.getD t rowDefault) } := by
  refine ⟨?_, ?_, ?_, ?_⟩
  · rw [trainWindow, List.length_take, List.length_drop]
    omega
  · intro k hk
    rw [trainWindow]
    rw [List.getD_eq_getElem?_getD, List.getD_eq_getElem?_getD]
    rw [List.getElem?_take_of_lt hk, List.getElem?_drop]
  · intro k hk
    omega
  · rw [rolling_forecast]
    rw [List.getD_eq_getElem?_getD]
    rw [List.getElem?_map, List.getElem?_drop]
    have hb : w + (t - w) < (List.range data.length).length := by
      rw [List.length_range]
      omega
    have hrange : (List.range data.length)[w + (t - w)]? = some t := by
      rw [List.getElem?_range (by simpa using hb)]
      congr 1
      omega
    rw [hrange]
    rfl

/-- C1 witness at a concrete three-row frame, window 2, step 2. -/
theorem c1_causal_training_window_witness :
    (2 ≤ 2) ∧ (2 < sampleRows.length) ∧
    ((trainWindow sampleRows 2 2).length = 2 ∧
     (∀ k, k < 2 → (trainWindow sampleRows 2 2).getD k rowDefault =
       sampleRows.getD (2 - 2 + k) rowDefault) ∧
     (∀ k, k < 2 → 2 - 2 + k < 2) ∧
     (rolling_forecast (fun _ _ => 0) 2 sampleRows).getD (2 - 2) frecDefault =
       { ts := (sampleRows.getD 2 rowDefault).ts,
         actual := (sampleRows.getD 2 rowDefault).actual,
         forecast := (fun _ _ => (0 : ℚ)) (trainWindow sampleRows 2 2)
           (sampleRows.getD 2 rowDefault) }) :=
  ⟨Nat.le_refl 2, by decide,
    c1_causal_training_window (fun _ _ => 0) 2 2 sampleRows (Nat.le_refl 2)
      (by decide)⟩

/-- C3 (amended): on an aligned frame with fewer than window_size + 1 rows
rolling_forecast returns the empty sequence, raising nothing; on exactly
window_size + 1 rows it returns exactly one forecast record. -/
theorem c3_window_length_contract (ols : List Row → Row → ℚ) (w : Nat)
    (data : List Row) :
    (data.length < w + 1 → rolling_forecast ols w data = []) ∧
    (data.length = w + 1 → (rolling_forecast ols w data).length = 1) := by
  constructor
  · intro h
    rw [rolling_forecast]
    have hnil : (List.range data.length).drop w = [] := by
      rw [List.drop_eq_nil_iff, List.length_range]
      omega
    rw [hnil]
    rfl
  · intro h
    rw [rolling_forecast, List.length_map, List.length_drop, List.length_range]
    omega

/-- C3 counterexample: a pair of input series whose aligned frame has two
rows, fewer than window 2 plus one, makes rolling_forecast return the
empty sequence as an ordinary value; no exception path exists in the
source, which contradicts the claimed InsufficientDataError. -/
theorem c3_no_insufficient_data_error :
    (alignedFrame [0, 1, 2, 3] [some 1, some 2, some 3, none]
        [some 5, some 6, some 7, some 8]).length = 2 ∧
    rolling_forecast (fun _ _ => 0) 2
        (alignedFrame [0, 1, 2, 3] [some 1, some 2, some 3, none]
          [some 5, some 6, some 7, some 8]) = [] := by
  constructor <;> rfl

/-- C3 witness for the amended statement: both branches at concrete
frames. -/
theorem c3_window_length_contract_witness :
    (sampleRowsShort.length < 2 + 1 ∧
      rolling_forecast (fun _ _ => 0) 2 sampleRowsShort = []) ∧
    (sampleRows.length = 2 + 1 ∧
      (rolling_forecast (fun _ _ => 0) 2 sampleRows).length = 1) :=
  ⟨⟨by decide,
      (c3_window_length_contract (fun _ _ => 0) 2 sampleRowsShort).1 (by decide)⟩,
    ⟨rfl, (c3_window_length_contract (fun _ _ => 0) 2 sampleRows).2 rfl⟩⟩

/-- C4: with at least window_size + 1 aligned rows, the forecast sequence
has length len(data) - window_size and carries the aligned timestamps from
position window_size on, in order. -/
theorem c4_output_length_and_index (ols : List Row → Row → ℚ) (w : Nat)
    (data : List Row) (_h : w + 1 ≤ data.length) :
    (rolling_forecast ols w data).length = data.length - w ∧
    (rolling_forecast ols w data).map (fun r => r.ts) =
      (data.map (fun r => r.ts)).drop w := by
  constructor
  · rw [rolling_forecast, List.length_map, List.length_drop, List.length_range]
  · exact rolling_forecast_map_ts ols w data

/-- C4 witness at a concrete three-row frame with window 2. -/
theorem c4_output_length_and_index_witness :
    (2 + 1 ≤ sampleRows.length) ∧
    ((rolling_forecast (fun _ _ => 0) 2 sampleRows).length =
      sampleRows.length - 2 ∧
    (rolling_forecast (fun _ _ => 0) 2 sampleRows).map (fun r => r.ts) =
      (sampleRows.map (fun r => r.ts)).drop 2) :=
  ⟨by decide, c4_output_length_and_index (fun _ _ => 0) 2 sampleRows (by decide)⟩

/-- C9: the earliest shared index position always drops out of the aligned
frame because its one-step lag is missing, the aligned frame is at least
one row shorter than the shared index, and every forecast record comes
from a shared position at least window_size + 1, so the first
window_size + 1 shared positions never receive a forecast. -/
theorem c9_earliest_position_dropped (ols : List Row → Row → ℚ) (w : Nat)
    (idx : List Int) (tgt peer : List (Option ℚ)) :
    rowAt tgt peer 0 = none ∧
    0 ∉ alignedIdx tgt peer idx.length ∧
    (alignedFrame idx tgt peer).length ≤ idx.length - 1 ∧
    ((rolling_forecast ols w (alignedFrame idx tgt peer)).map (fun r => r.ts) =
      ((alignedIdx tgt peer idx.length).drop w).map (fun i => idx.getD i 0)) ∧
    (∀ j ∈ (alignedIdx tgt peer idx.length).drop w, w + 1 ≤ j) := by
  have h0 : rowAt tgt peer 0 = none := by
    unfold rowAt
    cases tgt.getD 0 none <;> cases peer.getD 0 none <;> simp
  have h1 : 0 ∉ alignedIdx tgt peer idx.length := by
    intro hmem
    have h2 := (List.mem_filter.mp hmem).2
    rw [h0] at h2
    simp at h2
  have hge1 : ∀ x ∈ alignedIdx tgt peer idx.length, 1 ≤ x := by
    intro x hx
    rcases Nat.eq_zero_or_pos x with rfl | hpos
    · exact absurd hx h1
    · exact hpos
  have hpair : (alignedIdx tgt peer idx.length).Pairwise (fun a b => a < b) :=
    (List.sorted_lt_range idx.length).filter _
  refine ⟨h0, h1, ?_, ?_, ?_⟩
  · rw [alignedFrame, List.length_map]
    cases hn : idx.length with
    | zero => simp [alignedIdx]
    | succ n =>
      rw [alignedIdx, List.range_succ_eq_map, List.filter_cons]
      simp only [h0, Option.isSome_none]
      calc (List.filter (fun i => (rowAt tgt peer i).isSome)
              (List.map Nat.succ (List.range n))).length
          ≤ (List.map Nat.succ (List.range n)).length :=
            List.length_filter_le _ _
        _ = n := by rw [List.length_map, List.length_range]
        _ = n + 1 - 1 := rfl
  · rw [rolling_forecast_map_ts, alignedFrame, List.map_map, ← List.map_drop]
    rfl
  · intro j hj
    have := pairwise_lt_drop_le w (alignedIdx tgt peer idx.length) 1 hpair hge1 j hj
    omega

/-- C9 witness: a concrete pair of series where the surviving positions
after window 1 are all at least 2. -/
theorem c9_earliest_position_dropped_witness :
    (2 ∈ (alignedIdx [some 1, some 2, some 3] [some 4, some 5, some 6]
        ([(0 : Int), 1, 2]).length).drop 1) ∧
    (1 + 1 ≤ 2) :=
  ⟨by decide,
    (c9_earliest_position_dropped (fun _ _ => 0) 1 [(0 : Int), 1, 2]
      [some 1, some 2, some 3] [some 4, some 5, some 6]).2.2.2.2 2 (by decide)⟩

/- Evaluation helpers and claims. -/

theorem bfill_map_some (xs : List ℚ) : bfill (xs.map some) = xs.map some := by
  induction xs with
  | nil => rfl
  | cons x t ih => simp [bfill, ih]

theorem seqOption_map_some (xs : List ℚ) : seqOption (xs.map some) = some xs := by
  induction xs with
  | nil => rfl
  | cons x t ih => simp [seqOption, ih]

theorem naiveForecast_cons_cons (a b : ℚ) (l : List ℚ) :
    naiveForecast (a :: b :: l) =
      some a :: ((a :: b :: l).dropLast.map some) := by
  rw [naiveForecast, shift1]
  rw [List.dropLast_cons₂, List.map_cons]
  rw [bfill, ← List.map_cons, bfill_map_some]
  rfl

/-- C6: evaluate returns skill_score = (baseline_rmse - model_rmse) /
baseline_rmse inside the metrics, and a zero baseline error makes the
returned skill score the non-finite marker, never a finite number such as
zero or one. -/
theorem c6_skill_score_definition (rs : List (ℚ × ℚ)) (m : Metrics)
    (hm : evaluate_forecast rs = some m) :
    evaluate_metrics rs = some (model_rmse m, naive_rmse m, skill_score m) ∧
    (naive_rmse m ≠ 0 →
      skill_score m =
        SkillScore.val ((naive_rmse m - model_rmse m) / naive_rmse m)) ∧
    (m.naive_mse = 0 →
      naive_rmse m = 0 ∧ skill_score m = SkillScore.undef ∧
      skill_score m ≠ SkillScore.val 0 ∧ skill_score m ≠ SkillScore.val 1) := by
  refine ⟨?_, ?_, ?_⟩
  · rw [evaluate_metrics, hm]
    rfl
  · intro h
    rw [skill_score, if_neg h]
  · intro h
    have h0 : naive_rmse m = 0 := by
      rw [naive_rmse, h]
      simp
    refine ⟨h0, ?_, ?_, ?_⟩
    · rw [skill_score, if_pos h0]
    · rw [skill_score, if_pos h0]
      exact fun hc => SkillScore.noConfusion hc
    · rw [skill_score, if_pos h0]
      exact fun hc => SkillScore.noConfusion hc

/-- C6 witness: two records whose naive baseline reproduces the actual
column exactly, so the baseline error is zero. -/
theorem c6_skill_score_definition_witness :
    (evaluate_forecast [(1, 2), (1, 3)] =
      some { model_mse := 5 / 2, naive_mse := 0 }) ∧
    (evaluate_metrics [(1, 2), (1, 3)] =
      some (model_rmse { model_mse := 5 / 2, naive_mse := 0 },
        naive_rmse { model_mse := 5 / 2, naive_mse := 0 },
        skill_score { model_mse := 5 / 2, naive_mse := 0 }) ∧
    (naive_rmse { model_mse := 5 / 2, naive_mse := 0 } ≠ 0 →
      skill_score { model_mse := 5 / 2, naive_mse := 0 } =
        SkillScore.val ((naive_rmse { model_mse := 5 / 2, naive_mse := 0 } -
            model_rmse { model_mse := 5 / 2, naive_mse := 0 }) /
          naive_rmse { model_mse := 5 / 2, naive_mse := 0 })) ∧
    ((5 / 2 : ℚ) = 5 / 2 → (0 : ℚ) = 0 →
      True) ∧
    ({ model_mse := 5 / 2, naive_mse := 0 : Metrics }.naive_mse = 0 →
      naive_rmse { model_mse := 5 / 2, naive_mse := 0 } = 0 ∧
      skill_score { model_mse := 5 / 2, naive_mse := 0 } = SkillScore.undef ∧
      skill_score { model_mse := 5 / 2, naive_mse := 0 } ≠ SkillScore.val 0 ∧
      skill_score { model_mse := 5 / 2, naive_mse := 0 } ≠ SkillScore.val 1)) := by
  have hm : evaluate_forecast [(1, 2), (1, 3)] =
      some { model_mse := 5 / 2, naive_mse := 0 } := by
    norm_num [evaluate_forecast, naiveForecast, shift1, bfill, nextVal,
      seqOption, mseQ]
  have hc := c6_skill_score_definition [(1, 2), (1, 3)]
    { model_mse := 5 / 2, naive_mse := 0 } hm
  exact ⟨hm, hc.1, hc.2.1, fun _ _ => trivial, fun _ => hc.2.2 rfl⟩

/-- C7 counterexample: for the singleton record sequence the shifted
baseline has no subsequent value to back-fill with: the first baseline
entry stays missing and the evaluation fails, so the claim fails on a
non-empty sequence of length one. -/
theorem c7_singleton_baseline_missing :
    naiveForecast [5] = [none] ∧ evaluate_forecast [(5, 0)] = none := by
  constructor <;> rfl

/-- C7 (amended): for every record sequence of length at least two, the
baseline at each later position is the previous actual, the first baseline
position is back-filled with the nearest subsequent entry of the shifted
column (the actual at position 0), and no row is dropped: the baseline is
fully defined and the evaluation succeeds. -/
theorem c7_baseline_construction (rs : List (ℚ × ℚ)) (h2 : 2 ≤ rs.length) :
    (naiveForecast (actualCol rs)).length = rs.length ∧
    (naiveForecast (actualCol rs)).getD 0 none = some ((actualCol rs).getD 0 0) ∧
    (∀ i, 1 ≤ i → i < rs.length →
      (naiveForecast (actualCol rs)).getD i none =
        some ((actualCol rs).getD (i - 1) 0)) ∧
    (seqOption (naiveForecast (actualCol rs))).isSome ∧
    (evaluate_forecast rs).isSome := by
  cases rs with
  | nil => simp at h2
  | cons r1 tl =>
    cases tl with
    | nil => simp at h2
    | cons r2 rest =>
      have hac : actualCol (r1 :: r2 :: rest) =
          r1.1 :: r2.1 :: rest.map (fun r => r.1) := rfl
      have hnf := naiveForecast_cons_cons r1.1 r2.1 (rest.map (fun r => r.1))
      have hlen : (r1.1 :: r2.1 :: rest.map (fun r => r.1)).length =
          (r1 :: r2 :: rest).length := by
        simp
      have hdl : (r1.1 :: r2.1 :: rest.map (fun r => r.1)).dropLast.length =
          rest.length + 1 := by
        simp
      refine ⟨?_, ?_, ?_, ?_, ?_⟩
      · rw [hac, hnf]
        simp
      · rw [hac, hnf]
        rfl
      · intro i h1 hi
        obtain ⟨j, rfl⟩ : ∃ j, i = j + 1 := ⟨i - 1, by omega⟩
        rw [hac, hnf]
        rw [List.getD_cons_succ]
        have hj : j < (r1.1 :: r2.1 :: rest.map (fun r => r.1)).dropLast.length := by
          rw [hdl]
          simp only [List.length_cons] at hi
          omega
        rw [List.getD_eq_getElem?_getD, List.getElem?_map,
          List.getElem?_eq_getElem hj]
        simp only [Option.map_some', Option.getD_some]
        rw [List.getElem_dropLast]
        have hsub : j + 1 - 1 = j := by omega
        rw [hsub]
        have hj2 : j < (r1.1 :: r2.1 :: rest.map (fun r => r.1)).length := by
          simp only [List.length_cons, List.length_map]
          simp only [List.length_cons] at hi
          omega
        rw [List.getD_eq_getElem?_getD, List.getElem?_eq_getElem hj2]
        rfl
      · rw [hac, hnf, ← List.map_cons, seqOption_map_some]
        rfl
      · rw [evaluate_forecast]
        simp only [List.isEmpty_cons, Bool.false_eq_true, if_false]
        have hseq : seqOption (naiveForecast
            ((r1 :: r2 :: rest).map (fun r => r.1))) =
            some (r1.1 :: (r1.1 :: r2.1 :: rest.map (fun r => r.1)).dropLast) := by
          have he : (r1 :: r2 :: rest).map (fun r => r.1) =
              r1.1 :: r2.1 :: rest.map (fun r => r.1) := rfl
          rw [he, hnf, ← List.map_cons, seqOption_map_some]
        rw [hseq]
        rfl

/-- C7 witness for the amended statement at a concrete three-record
sequence. -/
theorem c7_baseline_construction_witness :
    (2 ≤ ([((1 : ℚ), (10 : ℚ)), (2, 20), (3, 30)] : List (ℚ × ℚ)).length) ∧
    ((naiveForecast (actualCol [((1 : ℚ), (10 : ℚ)), (2, 20), (3, 30)])).length =
      ([((1 : ℚ), (10 : ℚ)), (2, 20), (3, 30)] : List (ℚ × ℚ)).length ∧
    (naiveForecast (actualCol [((1 : ℚ), (10 : ℚ)), (2, 20), (3, 30)])).getD 0 none =
      some ((actualCol [((1 : ℚ), (10 : ℚ)), (2, 20), (3, 30)]).getD 0 0) ∧
    (∀ i, 1 ≤ i → i < ([((1 : ℚ), (10 : ℚ)), (2, 20), (3, 30)] : List (ℚ × ℚ)).length →
      (naiveForecast (actualCol [((1 : ℚ), (10 : ℚ)), (2, 20), (3, 30)])).getD i none =
        some ((actualCol [((1 : ℚ), (10 : ℚ)), (2, 20), (3, 30)]).getD (i - 1) 0)) ∧
    (seqOption (naiveForecast (actualCol [((1 : ℚ), (10 : ℚ)), (2, 20), (3, 30)]))).isSome ∧
    (evaluate_forecast [((1 : ℚ), (10 : ℚ)), (2, 20), (3, 30)]).isSome) :=
  ⟨by decide,
    c7_baseline_construction [((1 : ℚ), (10 : ℚ)), (2, 20), (3, 30)] (by decide)⟩

end HARRV
